import Mathlib

/-!
Shallow embedding of the prompt program (src/prompt.c), centred on the
Git Repository State Resolver (`git_section`) and the leaf utilities it
relies on (`readf`, `readp`, `split`, `strcatv`, `append`).

Byte buffers are modelled as Lean `String`/`List Char` (one character per
byte); filesystem and subprocess results are supplied by an `Env` oracle,
since they are external to the program.  Every definition is translated
from the C source; line numbers in doc comments refer to src/prompt.c.
-/

/-- Truncation of a captured byte stream to the first `n` bytes, as a
bounded `read` loop into an `n`-byte region does. -/
def takeN (n : Nat) (s : String) : String :=
  ⟨s.data.take n⟩

/-- Dropping the final byte of a non-empty buffer (`--p` before the
terminating write), as `readf` (line 143) and `readp` with `single`
(line 121) do. -/
def dropLastChar (s : String) : String :=
  ⟨s.data.dropLast⟩

/-- `split` (lines 151-158) on the logical string level: scan to the first
occurrence of `sep` or of a NUL byte, return the segment before it and the
text after it.  When no such byte occurs the scan stops at the buffer
terminator and the remainder is modelled as empty (the in-memory cursor
bounds of the real `split` are analysed separately by `splitB`). -/
def splitL (sep : Char) : List Char → List Char × List Char
  | [] => ([], [])
  | c :: cs =>
    if c = sep ∨ c = '\x00' then ([], cs)
    else
      let r := splitL sep cs
      (c :: r.1, r.2)

/-- String-level wrapper of `splitL`: one `split` call, returning the
segment and the rest. -/
def split1 (sep : Char) (s : String) : String × String :=
  let r := splitL sep s.data
  (⟨r.1⟩, ⟨r.2⟩)

/-- `strcatv` (lines 79-95) as used with optional arguments: varargs are
consumed until the first NULL, so arguments from the first `none` on are
ignored. -/
def strcatvOpt (args : List (Option String)) : String :=
  String.join ((args.takeWhile Option.isSome).map (fun a => a.getD ""))

/-- `readf path buf size` (lines 130-149): when the file cannot be opened
the buffer is left empty; otherwise up to `size - 1` bytes are read and,
if anything was read, the final byte read is dropped.  The file's content
(or `none` when `open` fails) is the oracle input. -/
def readfM (size : Nat) (content : Option String) : String :=
  match content with
  | none => ""
  | some s => dropLastChar (takeN (size - 1) s)

/-- The capture side of `readp cmd single buf size` (lines 97-128): the
child's standard output `out` is read up to `size - 1` bytes; with
`single` set, the final byte read is dropped.  The exit status is passed
through unchanged (its computation from the wait status is modelled by
`readpExit`). -/
def readpM (size : Nat) (single : Bool) (res : Int × String) : Int × String :=
  let captured := takeN (size - 1) res.2
  (res.1, if single then dropLastChar captured else captured)

/-- Operation-in-progress values, named as in the specification's data
model. -/
inductive Operation where
  | rebaseMerge
  | rebaseApply
  | amMailbox
  | amRebase
  | merging
  | cherryPicking
  | reverting
  | bisecting
  | noOp
  deriving DecidableEq, Repr

/-- The operation-detection decision chain of `git_section`
(lines 246-270), with the specification's names for the branches: the
`rebase-merge` directory is tested first, then `rebase-apply` (with its
`rebasing`/`applying` sub-cases), then the `MERGE_HEAD`,
`CHERRY_PICK_HEAD`, `REVERT_HEAD` and `BISECT_LOG` files, in this order,
first match winning. -/
def operationOf (isdir isreg : String → Bool) (git : String) : Operation :=
  if isdir (git ++ "/rebase-merge") then
    .rebaseMerge
  else if isdir (git ++ "/rebase-apply") then
    if isreg (git ++ "/rebase-apply/rebasing") then .rebaseApply
    else if isreg (git ++ "/rebase-apply/applying") then .amMailbox
    else .amRebase
  else if isreg (git ++ "/MERGE_HEAD") then .merging
  else if isreg (git ++ "/CHERRY_PICK_HEAD") then .cherryPicking
  else if isreg (git ++ "/REVERT_HEAD") then .reverting
  else if isreg (git ++ "/BISECT_LOG") then .bisecting
  else .noOp

/-- Identifiers for the seven fixed git command vectors of the program
(lines 20-26). -/
inductive Cmd where
  | revParse
  | diffQ
  | diffCachedQ
  | checkStash
  | readHead
  | describeC
  | upstreamC
  deriving DecidableEq, Repr

/-- Oracle for everything external to the program: filesystem type checks
(`isdir`/`isreg`/`islnk`, lines 160-173), file contents as seen by `readf`
(`none` when the file cannot be opened), and for each command the exit
status `readp` computes together with the child's raw standard output. -/
structure Env where
  isdir : String → Bool
  isreg : String → Bool
  islnk : String → Bool
  fileContent : String → Option String
  exec : Cmd → Int × String

/-- The local state `git_section` has built when it reaches its `append`
calls (lines 243, 339-350): the operation tag `r`, head label `b`, the
work-tree markers `w`/`i`/`s`, the bare prefix `c`, the upstream arrow `p`,
the `detached` flag, plus the list of commands run (`calls`, in order) and
whether the section produced any output at all (`ran`, false when the
location probe captured nothing). -/
structure GitOut where
  ran : Bool
  r : Option String
  b : Option String
  w : Option String
  i : Option String
  s : Option String
  c : Option String
  p : Option String
  detached : Bool
  calls : List Cmd
  deriving DecidableEq, Repr

/-- `strncmp(s, pre, strlen(pre)) == 0`: the byte prefix test used at
lines 281 and 298. -/
def strHasPrefix (pre s : String) : Bool :=
  pre.data.isPrefixOf s.data

/-- Pointer advance `s + n`: drop the first `n` bytes. -/
def strDrop (n : Nat) (s : String) : String :=
  ⟨s.data.drop n⟩

/-- The upstream-divergence arrow computation (lines 325-336): run the
left-right count with `single` trimming into a 256-byte buffer; on exit 0,
`"0\t0"` gives the empty marker, otherwise the first tab-separated field
`rmt` and the following field `loc` select the up arrow (`rmt` zero), the
down arrow (`loc` zero) or the up-down arrow; on non-zero exit the marker
stays NULL. -/
def upstreamP (res : Int × String) : Option String :=
  let rr := readpM 256 true res
  if rr.1 = 0 then
    some (if rr.2 = "0\t0" then ""
      else
        let t1 := split1 '\t' rr.2
        let rmt := t1.1
        let loc := (split1 '\t' t1.2).1
        if rmt = "0" then "↑" else if loc = "0" then "↓" else "↕")
  else none

/-- The operation-detection and head-label block of `git_section`
(lines 246-295), producing the tuple
`(r, b, step, total, detached, commands run)`: the `rebase-merge` branch
reads `head-name`, `msgnum` and `end` (leaving the tag `r` NULL); the
`rebase-apply` branch reads `next`/`last` and picks the
`|REBASE`/`|AM`/`|AM/REBASE` tag; otherwise `MERGE_HEAD`,
`CHERRY_PICK_HEAD`, `REVERT_HEAD` and `BISECT_LOG` pick their tags; when
no branch supplied a head label, `HEAD` is resolved through
`git symbolic-ref` (symlink case) or its `ref: ` content, falling back to
a parenthesised describe output or short hash with `...` for a detached
head. -/
def opHead (env : Env) (ssha : Option String) (git : String) :
    Option String × Option String × Option String × Option String ×
      Bool × List Cmd :=
  if env.isdir (git ++ "/rebase-merge") then
    (none,
     some (readfM 256 (env.fileContent (git ++ "/rebase-merge/head-name"))),
     some (readfM 256 (env.fileContent (git ++ "/rebase-merge/msgnum"))),
     some (readfM 256 (env.fileContent (git ++ "/rebase-merge/end"))),
     false, [])
  else
    let og : Option String × Option String × Option String × Option String :=
      if env.isdir (git ++ "/rebase-apply") then
        let step := some (readfM 256 (env.fileContent (git ++ "/rebase-apply/next")))
        let total := some (readfM 256 (env.fileContent (git ++ "/rebase-apply/last")))
        if env.isreg (git ++ "/rebase-apply/rebasing") then
          (some "|REBASE",
           some (readfM 256 (env.fileContent (git ++ "/rebase-apply/head-name"))),
           step, total)
        else if env.isreg (git ++ "/rebase-apply/applying") then
          (some "|AM", none, step, total)
        else
          (some "|AM/REBASE", none, step, total)
      else if env.isreg (git ++ "/MERGE_HEAD") then
        (some "|MERGING", none, none, none)
      else if env.isreg (git ++ "/CHERRY_PICK_HEAD") then
        (some "|CHERRY-PICKING", none, none, none)
      else if env.isreg (git ++ "/REVERT_HEAD") then
        (some "|REVERTING", none, none, none)
      else if env.isreg (git ++ "/BISECT_LOG") then
        (some "|BISECTING", none, none, none)
      else (none, none, none, none)
    let headRes : Option String × Bool × List Cmd :=
      if og.2.1 = none then
        if env.islnk (git ++ "/HEAD") then
          let rh := readpM 256 true (env.exec .readHead)
          (if rh.1 = 0 then some rh.2 else none, false, [.readHead])
        else
          let head := readfM 256 (env.fileContent (git ++ "/HEAD"))
          if strHasPrefix "ref: " head then
            (some (strDrop 5 head), false, [])
          else
            let de := readpM 254 true (env.exec .describeC)
            let inner := if de.1 ≠ 0 then strcatvOpt [ssha, some "..."] else de.2
            (some ("(" ++ inner ++ ")"), true, [.describeC])
      else (og.2.1, false, [])
    (og.1, headRes.1, og.2.2.1, og.2.2.2, headRes.2.1, headRes.2.2)

/-- The body of `git_section` after the location-probe capture has been
split (lines 243-351): operation and head-label detection via `opHead`,
the `refs/heads/` prefix strip, the progress suffix (note `strcatv` stops
at a NULL first argument, so a NULL tag `r` yields the empty string), the
inside-git-dir overrides, and the four work-tree probes when inside a
work tree. -/
def gitSectionCore (env : Env) (ssha : Option String)
    (git inside bare intree : String) : GitOut :=
  let main := opHead env ssha git
  let r0 := main.1
  let b0 := main.2.1
  let step := main.2.2.1
  let total := main.2.2.2.1
  let detached := main.2.2.2.2.1
  let callsHead := main.2.2.2.2.2
  let b1 : Option String :=
    match b0 with
    | some bs => if strHasPrefix "refs/heads/" bs then some (strDrop 11 bs) else some bs
    | none => none
  let r1 : Option String :=
    match step, total with
    | some st, some tl => some (strcatvOpt [r0, some " ", some st, some "/", some tl])
    | _, _ => r0
  if inside = "true" then
      if bare = "true" then
        { ran := true, r := r1, b := b1, w := none, i := none, s := none,
          c := some "BARE:", p := none, detached := detached,
          calls := [.revParse] ++ callsHead }
      else
        { ran := true, r := r1, b := some "GIT_DIR!", w := none, i := none,
          s := none, c := none, p := none, detached := detached,
          calls := [.revParse] ++ callsHead }
    else if intree = "true" then
      let d1 := readpM 256 false (env.exec .diffQ)
      let w := if d1.1 ≠ 0 then some "*" else none
      let d2 := readpM 256 false (env.exec .diffCachedQ)
      let i := if d2.1 ≠ 0 then some "+" else if ssha = none then some "#" else none
      let st := readpM 256 false (env.exec .checkStash)
      let s := if st.1 = 0 then some "$" else none
      let p := upstreamP (env.exec .upstreamC)
      { ran := true, r := r1, b := b1, w := w, i := i, s := s, c := none, p := p,
        detached := detached,
        calls := [.revParse] ++ callsHead ++ [.diffQ, .diffCachedQ, .checkStash, .upstreamC] }
    else
      { ran := true, r := r1, b := b1, w := none, i := none, s := none,
        c := none, p := none, detached := detached,
        calls := [.revParse] ++ callsHead }

/-- `git_section` (lines 232-242 plus `gitSectionCore`): run the location
probe into a 256-byte buffer; if it captured nothing, the absent state is
returned and nothing else runs; otherwise split the capture into the
`git`, `inside`, `bare` and `intree` lines, take the short-hash line only
when the probe exited 0, and hand over to the body. -/
def gitSection (env : Env) : GitOut :=
  let rp := readpM 256 false (env.exec .revParse)
  let status := rp.1
  let rpbuf := rp.2
  if rpbuf = "" then
    { ran := false, r := none, b := none, w := none, i := none, s := none,
      c := none, p := none, detached := false, calls := [.revParse] }
  else
    let s1 := split1 '\n' rpbuf
    let s2 := split1 '\n' s1.2
    let s3 := split1 '\n' s2.2
    let s4 := split1 '\n' s3.2
    let ssha : Option String :=
      if status = 0 then some (split1 '\n' s4.2).1 else none
    gitSectionCore env ssha s1.1 s2.1 s3.1 s4.1

/-- The escaping `append` performs on each fragment (lines 36-47): a
backslash is inserted before every dollar or backslash byte (buffer
bounds are analysed separately by `appendStr`). -/
def escapeStr (s : String) : String :=
  ⟨(s.data.map (fun ch => if ch = '$' ∨ ch = '\\' then ['\\', ch] else [ch])).flatten⟩

/-- The text `git_section` contributes to the prompt (lines 341-350):
nothing when the location probe captured nothing; otherwise the bare
prefix `c`, the head label `b`, a space plus the `w`/`i`/`s` markers when
any is set, then the operation tag `r` and the upstream arrow `p`, each
passed through `append`. -/
def renderGit (g : GitOut) : String :=
  if g.ran then
    escapeStr (g.c.getD "") ++ escapeStr (g.b.getD "") ++
    (if g.w.isSome ∨ g.i.isSome ∨ g.s.isSome then
       escapeStr " " ++ escapeStr (g.w.getD "") ++ escapeStr (g.i.getD "") ++
         escapeStr (g.s.getD "")
     else "") ++
    escapeStr (g.r.getD "") ++ escapeStr (g.p.getD "")
  else ""

/-- A buffer segment containing neither the separator nor a NUL byte, so
that a `split` scan passes over it whole. -/
def cleanSeg (sep : Char) (s : String) : Prop :=
  ∀ ch ∈ s.data, ¬(ch = sep ∨ ch = '\x00')

instance (sep : Char) (s : String) : Decidable (cleanSeg sep s) := by
  unfold cleanSeg
  infer_instance

theorem takeN_of_le (n : Nat) (s : String) (h : s.data.length ≤ n) :
    takeN n s = s := by
  unfold takeN
  rw [List.take_of_length_le h]

theorem dropLastChar_concat (s : String) (c : Char) :
    dropLastChar (s ++ ⟨[c]⟩) = s := by
  unfold dropLastChar
  have hd : (s ++ ⟨[c]⟩).data = s.data ++ [c] := by
    simp [String.data_append]
  rw [hd, List.dropLast_concat]

theorem splitL_sepFree (sep : Char) (l : List Char)
    (h : ∀ ch ∈ l, ¬(ch = sep ∨ ch = '\x00')) : splitL sep l = (l, []) := by
  induction l with
  | nil => rfl
  | cons c cs ih =>
    have hc := h c (by simp)
    simp only [splitL, if_neg hc]
    rw [ih (fun d hd => h d (by simp [hd]))]

theorem splitL_append (sep : Char) (a b : List Char)
    (h : ∀ ch ∈ a, ¬(ch = sep ∨ ch = '\x00')) :
    splitL sep (a ++ sep :: b) = (a, b) := by
  induction a with
  | nil => simp [splitL]
  | cons c cs ih =>
    have hc := h c (by simp)
    have ih2 := ih (fun d hd => h d (by simp [hd]))
    simp [splitL, hc, ih2]

theorem split1_eq (sep : Char) (s a b : String)
    (hdata : s.data = a.data ++ sep :: b.data) (h : cleanSeg sep a) :
    split1 sep s = (a, b) := by
  unfold split1
  rw [hdata, splitL_append sep a.data b.data h]

theorem split1_sepFree (sep : Char) (s : String) (h : cleanSeg sep s) :
    split1 sep s = (s, "") := by
  unfold split1
  rw [splitL_sepFree sep s.data h]

theorem newline_data : ("\n" : String).data = ['\n'] := rfl

theorem tab_data : ("\t" : String).data = ['\t'] := rfl

/-- Under a well-formed location-probe capture — five newline-terminated
fields fitting in the 256-byte buffer — `gitSection` reduces to
`gitSectionCore` applied to the individual fields. -/
theorem gitSection_eq_core (env : Env) (g ins br it rest : String)
    (hg : cleanSeg '\n' g) (hins : cleanSeg '\n' ins)
    (hbr : cleanSeg '\n' br) (hit : cleanSeg '\n' it)
    (hout : (env.exec Cmd.revParse).2 =
      g ++ "\n" ++ ins ++ "\n" ++ br ++ "\n" ++ it ++ "\n" ++ rest)
    (hlen : ((env.exec Cmd.revParse).2).data.length ≤ 255) :
    gitSection env = gitSectionCore env
      (if (env.exec Cmd.revParse).1 = 0 then some (split1 '\n' rest).1 else none)
      g ins br it := by
  have htake : takeN 255 (env.exec Cmd.revParse).2 = (env.exec Cmd.revParse).2 :=
    takeN_of_le 255 _ hlen
  have hne : (env.exec Cmd.revParse).2 ≠ "" := by
    intro hcon
    rw [hcon] at hout
    have : ([] : List Char) =
        (g ++ "\n" ++ ins ++ "\n" ++ br ++ "\n" ++ it ++ "\n" ++ rest).data :=
      congrArg String.data hout
    simp [String.data_append, newline_data] at this
  have h1 : split1 '\n' (env.exec Cmd.revParse).2 =
      (g, ins ++ "\n" ++ br ++ "\n" ++ it ++ "\n" ++ rest) := by
    apply split1_eq _ _ _ _ _ hg
    rw [hout]
    simp [String.data_append, newline_data]
  have h2 : split1 '\n' (ins ++ "\n" ++ br ++ "\n" ++ it ++ "\n" ++ rest) =
      (ins, br ++ "\n" ++ it ++ "\n" ++ rest) := by
    apply split1_eq _ _ _ _ _ hins
    simp [String.data_append, newline_data]
  have h3 : split1 '\n' (br ++ "\n" ++ it ++ "\n" ++ rest) =
      (br, it ++ "\n" ++ rest) := by
    apply split1_eq _ _ _ _ _ hbr
    simp [String.data_append, newline_data]
  have h4 : split1 '\n' (it ++ "\n" ++ rest) = (it, rest) := by
    apply split1_eq _ _ _ _ _ hit
    simp [String.data_append, newline_data]
  simp only [gitSection, readpM]
  simp [htake, if_neg hne, h1, h2, h3, h4]

/-- C1: the resolved operation-in-progress is a single value chosen by
strict first-match priority: `rebase-merge` beats `rebase-apply`, which
beats `MERGE_HEAD`, which beats `CHERRY_PICK_HEAD`, which beats
`REVERT_HEAD`, which beats `BISECT_LOG`, which beats the none case; in
particular a metadata directory with both a `rebase-merge` subdirectory
and a `MERGE_HEAD` file resolves to `RebaseMerge`, never `Merging`. -/
theorem operation_priority (isdir isreg : String → Bool) (git : String) :
    (isdir (git ++ "/rebase-merge") = true →
      operationOf isdir isreg git = .rebaseMerge) ∧
    (isdir (git ++ "/rebase-merge") = false →
      isdir (git ++ "/rebase-apply") = true →
      (operationOf isdir isreg git = .rebaseApply ∨
       operationOf isdir isreg git = .amMailbox ∨
       operationOf isdir isreg git = .amRebase)) ∧
    (isdir (git ++ "/rebase-merge") = false →
      isdir (git ++ "/rebase-apply") = false →
      isreg (git ++ "/MERGE_HEAD") = true →
      operationOf isdir isreg git = .merging) ∧
    (isdir (git ++ "/rebase-merge") = false →
      isdir (git ++ "/rebase-apply") = false →
      isreg (git ++ "/MERGE_HEAD") = false →
      isreg (git ++ "/CHERRY_PICK_HEAD") = true →
      operationOf isdir isreg git = .cherryPicking) ∧
    (isdir (git ++ "/rebase-merge") = false →
      isdir (git ++ "/rebase-apply") = false →
      isreg (git ++ "/MERGE_HEAD") = false →
      isreg (git ++ "/CHERRY_PICK_HEAD") = false →
      isreg (git ++ "/REVERT_HEAD") = true →
      operationOf isdir isreg git = .reverting) ∧
    (isdir (git ++ "/rebase-merge") = false →
      isdir (git ++ "/rebase-apply") = false →
      isreg (git ++ "/MERGE_HEAD") = false →
      isreg (git ++ "/CHERRY_PICK_HEAD") = false →
      isreg (git ++ "/REVERT_HEAD") = false →
      isreg (git ++ "/BISECT_LOG") = true →
      operationOf isdir isreg git = .bisecting) ∧
    (isdir (git ++ "/rebase-merge") = false →
      isdir (git ++ "/rebase-apply") = false →
      isreg (git ++ "/MERGE_HEAD") = false →
      isreg (git ++ "/CHERRY_PICK_HEAD") = false →
      isreg (git ++ "/REVERT_HEAD") = false →
      isreg (git ++ "/BISECT_LOG") = false →
      operationOf isdir isreg git = .noOp) ∧
    (isdir (git ++ "/rebase-merge") = true →
      isreg (git ++ "/MERGE_HEAD") = true →
      operationOf isdir isreg git = .rebaseMerge ∧
      operationOf isdir isreg git ≠ .merging) := by
  unfold operationOf
  refine ⟨?_, ?_, ?_, ?_, ?_, ?_, ?_, ?_⟩ <;> intros <;> simp_all <;>
    cases hreb : isreg (git ++ "/rebase-apply/rebasing") <;>
    cases happ : isreg (git ++ "/rebase-apply/applying") <;> simp_all

/-- C1 witness: a metadata directory whose `rebase-merge` subdirectory and
`MERGE_HEAD` file both exist resolves to `RebaseMerge`, not `Merging`. -/
theorem operation_priority_witness :
    operationOf (fun p => p == ".git/rebase-merge" || p == ".git/rebase-apply")
        (fun p => p == ".git/MERGE_HEAD") ".git" = .rebaseMerge ∧
    operationOf (fun p => p == ".git/rebase-merge" || p == ".git/rebase-apply")
        (fun p => p == ".git/MERGE_HEAD") ".git" ≠ .merging := by
  have h := operation_priority
    (fun p => p == ".git/rebase-merge" || p == ".git/rebase-apply")
    (fun p => p == ".git/MERGE_HEAD") ".git"
  exact h.2.2.2.2.2.2.2 (by decide) (by decide)

/-- C2: when the location probe captures nothing — the metadata-directory
path is empty because the working directory is not inside a repository or
git is unavailable — `git_section` returns the absent state at once: the
only command issued is the location probe itself, no filesystem probe or
further subprocess runs, and no repository text is contributed to the
prompt. -/
theorem locate_empty_short_circuit (env : Env)
    (h : (readpM 256 false (env.exec Cmd.revParse)).2 = "") :
    gitSection env =
      { ran := false, r := none, b := none, w := none, i := none, s := none,
        c := none, p := none, detached := false, calls := [Cmd.revParse] } ∧
    renderGit (gitSection env) = "" := by
  have hg : gitSection env =
      { ran := false, r := none, b := none, w := none, i := none, s := none,
        c := none, p := none, detached := false, calls := [Cmd.revParse] } := by
    simp only [gitSection]
    rw [if_pos h]
  refine ⟨hg, ?_⟩
  rw [hg]
  simp [renderGit]

/-- Oracle for a working directory outside any repository: the location
probe fails and captures nothing. -/
def envNoRepo : Env where
  isdir := fun _ => false
  isreg := fun _ => false
  islnk := fun _ => false
  fileContent := fun _ => none
  exec := fun _ => (128, "")

/-- C2 witness: outside a repository the resolver runs only the location
probe and contributes nothing. -/
theorem locate_empty_short_circuit_witness :
    gitSection envNoRepo =
      { ran := false, r := none, b := none, w := none, i := none, s := none,
        c := none, p := none, detached := false, calls := [Cmd.revParse] } ∧
    renderGit (gitSection envNoRepo) = "" :=
  locate_empty_short_circuit envNoRepo rfl

/-- Oracle for a rebase-merge in progress on branch `main`, step 2 of 5:
the `rebase-merge` directory exists and its `head-name`, `msgnum` and
`end` files all exist with the expected contents; the working directory
is inside the work tree of `.git`. -/
def envRebaseMerge : Env where
  isdir := fun p => p == ".git/rebase-merge"
  isreg := fun _ => false
  islnk := fun _ => false
  fileContent := fun p =>
    if p == ".git/rebase-merge/head-name" then some "refs/heads/main\n"
    else if p == ".git/rebase-merge/msgnum" then some "2\n"
    else if p == ".git/rebase-merge/end" then some "5\n"
    else none
  exec := fun c =>
    if c == Cmd.revParse then (0, ".git\nfalse\nfalse\nfalse\nabc1234\n")
    else (1, "")

/-- C4: evaluation at the failing input.  A rebase-merge in progress whose
`msgnum` and `end` files both exist (contents 2 and 5) renders no
`" 2/5"` progress suffix at all: the rebase-merge branch never sets the
operation tag `r`, and the `strcatv` call that should append
`" <step>/<total>"` stops at its NULL first vararg, collapsing the whole
tag to the empty string — the rendered repository text is just `"main"`. -/
theorem rebase_merge_progress_dropped :
    envRebaseMerge.fileContent ".git/rebase-merge/msgnum" = some "2\n" ∧
    envRebaseMerge.fileContent ".git/rebase-merge/end" = some "5\n" ∧
    (gitSection envRebaseMerge).r = some "" ∧
    renderGit (gitSection envRebaseMerge) = "main" :=
  ⟨rfl, rfl, rfl, rfl⟩

/-- The head-label resolution runs at most one command: `git symbolic-ref`
(symlink case) or `git describe` (detached case). -/
theorem opHead_calls (env : Env) (ssha : Option String) (git : String) :
    (opHead env ssha git).2.2.2.2.2 = [] ∨
    (opHead env ssha git).2.2.2.2.2 = [Cmd.readHead] ∨
    (opHead env ssha git).2.2.2.2.2 = [Cmd.describeC] := by
  simp only [opHead]
  split_ifs <;> simp

/-- C6: when the location probe reports inside-git-dir true, the bare case
prefixes the rendered label with the `BARE:` tag, and the non-bare case
replaces the head label with the fixed `GIT_DIR!` marker and skips all
four work-tree probes (dirty diff, cached diff, stash check, upstream
count). -/
theorem inside_git_dir_override (env : Env) (g ins br it rest : String)
    (hg : cleanSeg '\n' g) (hins : cleanSeg '\n' ins)
    (hbr : cleanSeg '\n' br) (hit : cleanSeg '\n' it)
    (hout : (env.exec Cmd.revParse).2 =
      g ++ "\n" ++ ins ++ "\n" ++ br ++ "\n" ++ it ++ "\n" ++ rest)
    (hlen : ((env.exec Cmd.revParse).2).data.length ≤ 255)
    (hinside : ins = "true") :
    (br = "true" →
      (gitSection env).c = some "BARE:" ∧
      ∃ t, renderGit (gitSection env) = "BARE:" ++ t) ∧
    (br ≠ "true" →
      (gitSection env).b = some "GIT_DIR!" ∧
      Cmd.diffQ ∉ (gitSection env).calls ∧
      Cmd.diffCachedQ ∉ (gitSection env).calls ∧
      Cmd.checkStash ∉ (gitSection env).calls ∧
      Cmd.upstreamC ∉ (gitSection env).calls) := by
  rw [gitSection_eq_core env g ins br it rest hg hins hbr hit hout hlen]
  subst hinside
  constructor
  · intro hb
    subst hb
    have hc : (gitSectionCore env
        (if (env.exec Cmd.revParse).1 = 0 then some (split1 '\n' rest).1 else none)
        g "true" "true" it).c = some "BARE:" := by
      simp [gitSectionCore]
    have hran : (gitSectionCore env
        (if (env.exec Cmd.revParse).1 = 0 then some (split1 '\n' rest).1 else none)
        g "true" "true" it).ran = true := by
      simp [gitSectionCore]
    have hw : (gitSectionCore env
        (if (env.exec Cmd.revParse).1 = 0 then some (split1 '\n' rest).1 else none)
        g "true" "true" it).w = none := by
      simp [gitSectionCore]
    have hi : (gitSectionCore env
        (if (env.exec Cmd.revParse).1 = 0 then some (split1 '\n' rest).1 else none)
        g "true" "true" it).i = none := by
      simp [gitSectionCore]
    have hs : (gitSectionCore env
        (if (env.exec Cmd.revParse).1 = 0 then some (split1 '\n' rest).1 else none)
        g "true" "true" it).s = none := by
      simp [gitSectionCore]
    have hesc : escapeStr "BARE:" = "BARE:" := rfl
    refine ⟨hc, ?_⟩
    simp only [renderGit, hran, hw, hi, hs, hc, if_true]
    simp only [hesc, Option.getD_some, Option.isSome_none, Bool.false_eq_true,
      or_self, if_false]
    exact ⟨_, by repeat rw [String.append_assoc]⟩
  · intro hb
    have hcalls := opHead_calls env
      (if (env.exec Cmd.revParse).1 = 0 then some (split1 '\n' rest).1 else none) g
    refine ⟨?_, ?_, ?_, ?_, ?_⟩ <;>
      (simp only [gitSectionCore]
       rcases hcalls with h | h | h <;> simp [h, hb])

/-- Oracle for a bare repository whose metadata directory is the working
directory. -/
def envBare : Env where
  isdir := fun _ => false
  isreg := fun _ => false
  islnk := fun _ => false
  fileContent := fun p => if p == "./HEAD" then some "ref: refs/heads/master\n" else none
  exec := fun c =>
    if c == Cmd.revParse then (0, ".\ntrue\ntrue\nfalse\nabc1234\n")
    else (1, "")

/-- C6 witness: a bare repository entered directly gets the `BARE:`
prefix. -/
theorem inside_git_dir_override_witness :
    (gitSection envBare).c = some "BARE:" :=
  ((inside_git_dir_override envBare "." "true" "true" "false" "abc1234\n"
      (by decide) (by decide) (by decide) (by decide) rfl (by decide) rfl).1 rfl).1

/-- Index states, named as in the specification's data model. -/
inductive IndexState where
  | clean
  | staged
  | noCommitsYet
  deriving DecidableEq, Repr

/-- Interpretation of the index marker `i` built at lines 317-321: `+`
means staged changes, `#` means a repository with no commits yet, no
marker means clean. -/
def indexStateOf (i : Option String) : IndexState :=
  match i with
  | some "+" => .staged
  | some "#" => .noCommitsYet
  | _ => .clean

/-- C5: inside a work tree (and not inside the git dir), a non-zero quiet
cached diff yields `Staged`; otherwise, if the location probe obtained no
HEAD short hash (probe exit non-zero: a repository with zero commits),
the index state is `NoCommitsYet`, not `Clean`; otherwise `Clean`. -/
theorem index_state_resolution (env : Env) (g ins br it rest : String)
    (hg : cleanSeg '\n' g) (hins : cleanSeg '\n' ins)
    (hbr : cleanSeg '\n' br) (hit : cleanSeg '\n' it)
    (hout : (env.exec Cmd.revParse).2 =
      g ++ "\n" ++ ins ++ "\n" ++ br ++ "\n" ++ it ++ "\n" ++ rest)
    (hlen : ((env.exec Cmd.revParse).2).data.length ≤ 255)
    (hinside : ins ≠ "true") (hintree : it = "true") :
    (gitSection env).i =
      (if (env.exec Cmd.diffCachedQ).1 ≠ 0 then some "+"
       else if (env.exec Cmd.revParse).1 ≠ 0 then some "#" else none) ∧
    indexStateOf (gitSection env).i =
      (if (env.exec Cmd.diffCachedQ).1 ≠ 0 then IndexState.staged
       else if (env.exec Cmd.revParse).1 ≠ 0 then IndexState.noCommitsYet
       else IndexState.clean) := by
  rw [gitSection_eq_core env g ins br it rest hg hins hbr hit hout hlen]
  subst hintree
  have hi1 : (gitSectionCore env
      (if (env.exec Cmd.revParse).1 = 0 then some (split1 '\n' rest).1 else none)
      g ins br "true").i =
      (if (env.exec Cmd.diffCachedQ).1 ≠ 0 then some "+"
       else if (env.exec Cmd.revParse).1 ≠ 0 then some "#" else none) := by
    simp only [gitSectionCore, readpM]
    by_cases hd : (env.exec Cmd.diffCachedQ).1 = 0 <;>
      by_cases hs0 : (env.exec Cmd.revParse).1 = 0 <;>
      simp [hinside, hd, hs0]
  refine ⟨hi1, ?_⟩
  rw [hi1]
  by_cases hd : (env.exec Cmd.diffCachedQ).1 = 0 <;>
    by_cases hs0 : (env.exec Cmd.revParse).1 = 0 <;>
    simp [indexStateOf, hd, hs0]

/-- Oracle for a freshly initialised repository: no commits, so the
location probe exits non-zero after printing its four flag lines, and
both diffs exit 0. -/
def envNoCommits : Env where
  isdir := fun _ => false
  isreg := fun _ => false
  islnk := fun _ => false
  fileContent := fun p => if p == ".git/HEAD" then some "ref: refs/heads/master\n" else none
  exec := fun c =>
    if c == Cmd.revParse then (128, ".git\nfalse\nfalse\ntrue\n")
    else if c == Cmd.upstreamC then (128, "")
    else (0, "")

/-- C5 witness: a zero-commit repository with a clean index reports
`NoCommitsYet`, not `Clean`. -/
theorem index_state_resolution_witness :
    (gitSection envNoCommits).i = some "#" ∧
    indexStateOf (gitSection envNoCommits).i = IndexState.noCommitsYet := by
  have h := index_state_resolution envNoCommits ".git" "false" "false" "true" ""
    (by decide) (by decide) (by decide) (by decide) rfl (by decide) (by decide) rfl
  exact ⟨h.1.trans (by decide), h.2.trans (by decide)⟩

theorem dropLastChar_newline (s : String) : dropLastChar (s ++ "\n") = s := by
  have h : ("\n" : String) = ⟨['\n']⟩ := rfl
  rw [h]
  exact dropLastChar_concat s '\n'

/-- Upstream divergence states, named as in the specification's data
model. -/
inductive UpstreamDivergence where
  | noUpstream
  | inSync
  | ahead
  | behind
  | diverged
  deriving DecidableEq, Repr

/-- Interpretation of the upstream marker `p` built at lines 325-336: no
marker means no upstream, the empty marker means in sync, the up arrow
ahead, the down arrow behind, the up-down arrow diverged. -/
def divergenceOf (res : Int × String) : UpstreamDivergence :=
  match upstreamP res with
  | none => .noUpstream
  | some m =>
    if m = "" then .inSync
    else if m = "↑" then .ahead
    else if m = "↓" then .behind
    else .diverged

/-- C3: a successful left-right count whose output is the two
tab-separated counts `behind` and `ahead` (newline-terminated, as git
prints it) yields `InSync` when both are zero, `Ahead` when the behind
count is zero, `Behind` when the ahead count is zero, and `Diverged`
otherwise; the concrete outputs `0 TAB 0`, `0 TAB 3`, `2 TAB 0`,
`2 TAB 3` yield `InSync`, `Ahead`, `Behind`, `Diverged`; a failing
command (no upstream configured) yields `NoUpstream` whatever its
output. -/
theorem upstream_divergence_parse (bh ah : String) (st : Int) (out : String)
    (hbh : cleanSeg '\t' bh) (hah : cleanSeg '\t' ah)
    (hlen : (bh ++ "\t" ++ ah ++ "\n").data.length ≤ 255)
    (hst : st ≠ 0) :
    divergenceOf (0, bh ++ "\t" ++ ah ++ "\n") =
      (if bh = "0" ∧ ah = "0" then UpstreamDivergence.inSync
       else if bh = "0" then UpstreamDivergence.ahead
       else if ah = "0" then UpstreamDivergence.behind
       else UpstreamDivergence.diverged) ∧
    divergenceOf (st, out) = UpstreamDivergence.noUpstream ∧
    divergenceOf (0, "0\t0\n") = UpstreamDivergence.inSync ∧
    divergenceOf (0, "0\t3\n") = UpstreamDivergence.ahead ∧
    divergenceOf (0, "2\t0\n") = UpstreamDivergence.behind ∧
    divergenceOf (0, "2\t3\n") = UpstreamDivergence.diverged := by
  refine ⟨?_, ?_, by decide, by decide, by decide, by decide⟩
  · have htake : takeN 255 (bh ++ "\t" ++ ah ++ "\n") = bh ++ "\t" ++ ah ++ "\n" :=
      takeN_of_le 255 _ hlen
    have hdrop : dropLastChar (bh ++ "\t" ++ ah ++ "\n") = bh ++ "\t" ++ ah :=
      dropLastChar_newline (bh ++ "\t" ++ ah)
    have hsplit : split1 '\t' (bh ++ "\t" ++ ah) = (bh, ah) := by
      apply split1_eq _ _ _ _ _ hbh
      simp [String.data_append, tab_data]
    have hsplit2 : split1 '\t' ah = (ah, "") := split1_sepFree '\t' ah hah
    have hiff : (bh ++ "\t" ++ ah = "0\t0") ↔ (bh = "0" ∧ ah = "0") := by
      constructor
      · intro hcon
        have h1 := hsplit
        rw [hcon] at h1
        have h2 : split1 '\t' "0\t0" = ("0", "0") := by decide
        rw [h2] at h1
        have hb := congrArg Prod.fst h1
        have ha := congrArg Prod.snd h1
        simp at hb ha
        exact ⟨hb.symm, ha.symm⟩
      · rintro ⟨h1, h2⟩
        subst h1
        subst h2
        rfl
    have hmain : divergenceOf (0, bh ++ "\t" ++ ah ++ "\n") =
        (if bh ++ "\t" ++ ah = "0\t0" then UpstreamDivergence.inSync
         else if bh = "0" then UpstreamDivergence.ahead
         else if ah = "0" then UpstreamDivergence.behind
         else UpstreamDivergence.diverged) := by
      have e0 : ((0 : Int) = 0) = True := by simp
      simp only [divergenceOf, upstreamP, readpM, htake, hdrop, hsplit, hsplit2, e0,
        if_true]
      by_cases h00 : bh ++ "\t" ++ ah = "0\t0"
      · have e00 : (bh ++ "\t" ++ ah = "0\t0") = True := by simp [h00]
        simp only [e00, if_true]
      · have e00 : (bh ++ "\t" ++ ah = "0\t0") = False := by simp [h00]
        by_cases hb0 : bh = "0"
        · have eb : (bh = "0") = True := by simp [hb0]
          simp only [e00, eb, if_true, if_false]
          all_goals decide
        · have eb : (bh = "0") = False := by simp [hb0]
          by_cases ha0 : ah = "0"
          · have ea : (ah = "0") = True := by simp [ha0]
            simp only [e00, eb, ea, if_true, if_false]
            all_goals decide
          · have ea : (ah = "0") = False := by simp [ha0]
            simp only [e00, eb, ea, if_true, if_false]
            all_goals decide
    rw [hmain]
    simp only [hiff]
  · simp [divergenceOf, upstreamP, readpM, hst]

/-- C3 witness: behind count zero with ahead count three yields `Ahead`;
a failing upstream command yields `NoUpstream`. -/
theorem upstream_divergence_parse_witness :
    divergenceOf (0, "0" ++ "\t" ++ "3" ++ "\n") = UpstreamDivergence.ahead ∧
    divergenceOf (1, "") = UpstreamDivergence.noUpstream := by
  have h := upstream_divergence_parse "0" "3" 1 ""
    (by decide) (by decide) (by decide) (by decide)
  exact ⟨h.1.trans (by decide), h.2.1⟩

/-- C7 counterexample: `readf` on an openable file containing the two
bytes `ab` — whose final character is not a line separator — returns
`"a"`, not the untrimmed `"ab"` the claim requires. -/
theorem readf_trims_nonseparator :
    readfM 256 (some "ab") = "a" ∧ readfM 256 (some "ab") ≠ "ab" := by
  exact ⟨rfl, by decide⟩

/-- C7 as amended: `readf` returns the empty string (never an error) when
the file cannot be opened, stores at most `maxBytes - 1` bytes, and for an
openable non-empty file fitting the buffer trims exactly one trailing
byte — the final byte read — whether or not it is a line separator. -/
theorem readf_amended (size : Nat) (content : String)
    (hne : content ≠ "") (hlen : content.data.length ≤ size - 1) :
    readfM size none = "" ∧
    (∀ s : String, (readfM size (some s)).data.length ≤ size - 1) ∧
    (∃ c : Char, content = readfM size (some content) ++ ⟨[c]⟩) := by
  refine ⟨rfl, ?_, ?_⟩
  · intro s
    simp only [readfM, dropLastChar, takeN]
    calc ((s.data.take (size - 1)).dropLast).length
        ≤ (s.data.take (size - 1)).length := by
          rw [List.length_dropLast]
          omega
      _ ≤ size - 1 := by
          rw [List.length_take]
          omega
  · have hd : content.data ≠ [] := fun hcon =>
      hne (by rw [show content = ⟨content.data⟩ from rfl, hcon])
    refine ⟨content.data.getLast hd, ?_⟩
    have htk : takeN (size - 1) content = content := takeN_of_le _ _ hlen
    simp only [readfM, htk, dropLastChar]
    have hsplit := List.dropLast_append_getLast hd
    have happ : ((⟨content.data.dropLast⟩ : String) ++ ⟨[content.data.getLast hd]⟩)
        = (⟨content.data.dropLast ++ [content.data.getLast hd]⟩ : String) := rfl
    rw [happ, hsplit]

/-- C7 witness: the amended statement at the two-byte file `ab` with a
256-byte buffer. -/
theorem readf_amended_witness :
    readfM 256 none = "" ∧
    (∀ s : String, (readfM 256 (some s)).data.length ≤ 255) ∧
    (∃ c : Char, "ab" = readfM 256 (some "ab") ++ ⟨[c]⟩) :=
  readf_amended 256 "ab" (by decide) (by decide)

/-- Outcome of one `readp` child process, as the parent's `waitpid`
classifies it: the `execvp` call failed (the child then runs `exit(1)`,
line 109), or the child exited normally with a status byte, or the child
was terminated by a signal (`WIFEXITED` false). -/
inductive ChildResult where
  | execFailed
  | exited (code : Nat)
  | signaled
  deriving DecidableEq, Repr

/-- The exit-code path of `readp` (lines 102-127): a child whose `execvp`
failed exits with status 1, so the parent's `WIFEXITED`/`WEXITSTATUS`
report a normal exit 1; a normally exiting child yields its status byte;
only a non-exited (signaled) child yields the `-1` sentinel. -/
def readpExit : ChildResult → Int
  | .execFailed => 1
  | .exited code => Int.ofNat (code % 256)
  | .signaled => -1

/-- C8 counterexample: a command that cannot be launched at all produces
exit code 1 — exactly the code of a successfully launched child that
exited with status 1, so the claimed reserved sentinel does not exist. -/
theorem readp_exec_sentinel_clash :
    readpExit ChildResult.execFailed = readpExit (ChildResult.exited 1) ∧
    readpExit ChildResult.execFailed = 1 :=
  ⟨rfl, rfl⟩

/-- C8 as amended: a launch failure is reported as the normal exit
status 1 (indistinguishable from a real exit 1); the reserved `-1`
sentinel is produced only for a child that did not exit normally
(terminated by a signal), and it is distinguishable from every normal
0-255 status. -/
theorem readp_exit_amended :
    readpExit ChildResult.execFailed = 1 ∧
    readpExit ChildResult.signaled = -1 ∧
    (∀ code : Nat, 0 ≤ readpExit (ChildResult.exited code) ∧
      readpExit (ChildResult.exited code) ≤ 255 ∧
      readpExit (ChildResult.exited code) ≠ readpExit ChildResult.signaled) := by
  refine ⟨rfl, rfl, ?_⟩
  intro code
  have h : code % 256 < 256 := Nat.mod_lt _ (by omega)
  have e1 : readpExit (ChildResult.exited code) = ((code % 256 : Nat) : Int) := rfl
  have e2 : readpExit ChildResult.signaled = -1 := rfl
  rw [e1, e2]
  refine ⟨by omega, by omega, by omega⟩

/-- C8 witness: the amended statement at exit status 7. -/
theorem readp_exit_amended_witness :
    0 ≤ readpExit (ChildResult.exited 7) ∧
    readpExit (ChildResult.exited 7) ≤ 255 ∧
    readpExit (ChildResult.exited 7) ≠ readpExit ChildResult.signaled :=
  readp_exit_amended.2.2 7

/-- The prompt buffer bookkeeping of `append`/`appendraw` (lines 28-31):
`pos` is the write cursor `current - prompt` into the 4096-byte `prompt`
array and `remaining` the signed free-byte counter. -/
structure Buf where
  pos : Nat
  remaining : Int
  deriving DecidableEq, Repr

/-- One iteration of append's inner loop body (lines 38-44): a dollar or
backslash byte stores an escaping backslash and then the byte itself (two
writes, two decrements); any other byte stores one byte. -/
def appendChar (st : Buf) (ch : Char) : Buf :=
  if ch = '$' ∨ ch = '\\' then { pos := st.pos + 2, remaining := st.remaining - 2 }
  else { pos := st.pos + 1, remaining := st.remaining - 1 }

/-- append's inner loop (line 37) over one source fragment: before each
byte the guard tests `remaining` for being non-zero — not for being
positive. -/
def appendStr : Buf → List Char → Buf
  | st, [] => st
  | st, ch :: rest => if st.remaining ≠ 0 then appendStr (appendChar st ch) rest else st

/-- C9: evaluation at the failing input.  Appending 4095 plain bytes and
then a single `$` from the initial state (cursor 0, 4096 bytes free)
drives `remaining` to `-1` and the cursor to 4097, one byte past the
4096-byte prompt buffer: with exactly one byte left the escape path
stores two bytes.  Because the loop guard tests `remaining ≠ 0`, the
negative counter no longer stops the loop — three further bytes land at
cursor 4100 with `remaining = -4`. -/
theorem appendStr_stuck (st : Buf) (h : st.remaining = 0) (ys : List Char) :
    appendStr st ys = st := by
  cases ys with
  | nil => rfl
  | cons y rest => simp [appendStr, h]

theorem appendStr_append (xs ys : List Char) :
    ∀ st : Buf, appendStr st (xs ++ ys) = appendStr (appendStr st xs) ys := by
  induction xs with
  | nil => intro st; rfl
  | cons c cs ih =>
    intro st
    simp only [List.cons_append, appendStr]
    by_cases h : st.remaining ≠ 0
    · rw [if_pos h, if_pos h]
      exact ih (appendChar st c)
    · rw [if_neg h, if_neg h, appendStr_stuck st (by omega) ys]

theorem appendStr_replicate (n : Nat) :
    ∀ (p : Nat) (r : Int), (n : Int) ≤ r →
      appendStr ⟨p, r⟩ (List.replicate n 'a') = ⟨p + n, r - n⟩ := by
  induction n with
  | zero => intro p r _; simp [appendStr]
  | succ k ih =>
    intro p r h
    have hr : r ≠ 0 := by omega
    have hch : appendChar ⟨p, r⟩ 'a' = ⟨p + 1, r - 1⟩ := by simp [appendChar]
    simp only [List.replicate_succ, appendStr, if_pos hr, hch]
    rw [ih (p + 1) (r - 1) (by omega)]
    simp only [Buf.mk.injEq]
    omega

theorem append_overflow :
    appendStr ⟨0, 4096⟩ (List.replicate 4095 'a' ++ ['$']) = ⟨4097, -1⟩ ∧
    (4096 : Nat) < 4097 ∧
    appendStr ⟨0, 4096⟩ (List.replicate 4095 'a' ++ '$' :: ['b', 'b', 'b']) =
      ⟨4100, -4⟩ := by
  have h1 : appendStr ⟨0, 4096⟩ (List.replicate 4095 'a') = ⟨4095, 1⟩ := by
    have h := appendStr_replicate 4095 0 4096 (by norm_num)
    exact h.trans (by decide)
  refine ⟨?_, by omega, ?_⟩
  · rw [appendStr_append, h1]
    decide
  · rw [appendStr_append, h1]
    decide

/-- Helper for `scanFrom`: scan the cells `l` starting at absolute index
`idx`, returning the absolute index of the first separator or NUL cell. -/
def scanAux (sep : Char) : List Char → Nat → Option Nat
  | [], _ => none
  | c :: cs, idx =>
    if c = sep ∨ c = '\x00' then some idx else scanAux sep cs (idx + 1)

/-- The scan loop of `split` (lines 153-154) over the array holding the
captured output: advance from `pos` to the first cell holding the
separator or a NUL byte; `none` when the scan would read past the end of
the array (the out-of-bounds access the C code performs silently). -/
def scanFrom (buf : List Char) (sep : Char) (pos : Nat) : Option Nat :=
  scanAux sep (buf.drop pos) pos

theorem scanFrom_unfold (buf : List Char) (sep : Char) (pos : Nat)
    (h : pos < buf.length) :
    scanFrom buf sep pos =
      if buf[pos] = sep ∨ buf[pos] = '\x00' then some pos
      else scanFrom buf sep (pos + 1) := by
  unfold scanFrom
  rw [List.drop_eq_getElem_cons h]
  rfl

/-- `split` (lines 151-158) at the memory level: scan from the cursor,
return the segment scanned over, the array with a NUL byte written at the
stop cell (line 155), and the cursor advanced one past it (line 156);
`none` when the scan leaves the array. -/
def splitB (sep : Char) (buf : List Char) (pos : Nat) :
    Option (List Char × List Char × Nat) :=
  match scanFrom buf sep pos with
  | some j => some ((buf.drop pos).take (j - pos), buf.set j '\x00', j + 1)
  | none => none

/-- The five successive `split` calls of `git_section` (lines 238-242) on
the array holding the location probe's captured output, threading the
mutated array and cursor; `none` as soon as one call would touch memory
outside the array. -/
def splits5 (buf : List Char) : Option (List Char × Nat) :=
  (splitB '\n' buf 0).bind fun r1 =>
  (splitB '\n' r1.2.1 r1.2.2).bind fun r2 =>
  (splitB '\n' r2.2.1 r2.2.2).bind fun r3 =>
  (splitB '\n' r3.2.1 r3.2.2).bind fun r4 =>
  (splitB '\n' r4.2.1 r4.2.2).map fun r5 => (r5.2.1, r5.2.2)

/-- Cell `m` of the array stops a `split` scan: it holds the separator or
a NUL byte. -/
def isStopAt (sep : Char) (buf : List Char) (m : Nat) : Prop :=
  buf[m]? = some sep ∨ buf[m]? = some '\x00'

set_option maxRecDepth 4000 in
/-- C10 counterexample: a full 256-byte capture with no newline — 255
content bytes, terminator in the last cell, as `readp` produces for an
over-long first line — makes the first `split` leave the cursor at 256,
so the second of the five calls already reads outside the buffer. -/
theorem split_out_of_bounds :
    splits5 (List.replicate 255 'a' ++ ['\x00']) = none ∧
    splitB '\n' (List.replicate 255 'a' ++ ['\x00']) 0 =
      some (List.replicate 255 'a', List.replicate 255 'a' ++ ['\x00'], 256) := by
  constructor <;> decide

theorem scanFrom_stops (sep : Char) (buf : List Char) (j : Nat)
    (hj : j < buf.length) (hval : buf[j] = sep ∨ buf[j] = '\x00') :
    ∀ k pos, j - pos ≤ k → pos ≤ j →
      ∃ q, scanFrom buf sep pos = some q ∧ pos ≤ q ∧ q ≤ j := by
  intro k
  induction k with
  | zero =>
    intro pos hk hpj
    have hpos : pos = j := by omega
    subst hpos
    rw [scanFrom_unfold buf sep pos hj, if_pos hval]
    exact ⟨pos, rfl, le_refl _, le_refl _⟩
  | succ k ih =>
    intro pos hk hpj
    have hpl : pos < buf.length := by omega
    rw [scanFrom_unfold buf sep pos hpl]
    by_cases hx : buf[pos] = sep ∨ buf[pos] = '\x00'
    · rw [if_pos hx]
      exact ⟨pos, rfl, le_refl _, hpj⟩
    · rw [if_neg hx]
      have hne : pos ≠ j := by
        intro hcon
        apply hx
        subst hcon
        exact hval
      obtain ⟨q, hq, h1, h2⟩ := ih (pos + 1) (by omega) (by omega)
      exact ⟨q, hq, by omega, h2⟩

theorem splitB_step (sep : Char) (buf : List Char) (pos j : Nat)
    (hpj : pos ≤ j) (hj : j < buf.length)
    (hstop : isStopAt sep buf j) :
    ∃ seg buf2 pos2, splitB sep buf pos = some (seg, buf2, pos2) ∧
      pos2 ≤ j + 1 ∧ buf2.length = buf.length ∧
      ∀ m, isStopAt sep buf m → isStopAt sep buf2 m := by
  have hval : buf[j] = sep ∨ buf[j] = '\x00' := by
    rcases hstop with h | h
    · left
      exact Option.some.inj ((List.getElem?_eq_getElem hj).symm.trans h)
    · right
      exact Option.some.inj ((List.getElem?_eq_getElem hj).symm.trans h)
  obtain ⟨q, hq, hpq, hqj⟩ :=
    scanFrom_stops sep buf j hj hval (j - pos) pos (by omega) hpj
  refine ⟨(buf.drop pos).take (q - pos), buf.set q '\x00', q + 1, ?_,
    by omega, by simp, ?_⟩
  · simp [splitB, hq]
  · intro m hm
    have hq' : q < buf.length := by omega
    by_cases hmq : m = q
    · subst hmq
      right
      exact List.getElem?_set_eq_of_lt '\x00' hq'
    · rcases hm with h | h
      · left
        rw [List.getElem?_set_ne (fun hcon => hmq hcon.symm)]
        exact h
      · right
        rw [List.getElem?_set_ne (fun hcon => hmq hcon.symm)]
        exact h

/-- C10 as amended: a `split` scan that meets a separator or NUL cell
stays inside the buffer, and the five successive calls of `git_section`
all stay in bounds provided the captured output holds at least four
separators before its terminator — with fewer separators a later call's
cursor can leave the buffer, as `split_out_of_bounds` shows on a full
no-newline capture. -/
theorem splits_in_bounds (buf : List Char) (n1 n2 n3 n4 t : Nat)
    (h12 : n1 < n2) (h23 : n2 < n3) (h34 : n3 < n4) (h4t : n4 < t)
    (ht : t < buf.length)
    (hn1 : buf[n1]? = some '\n') (hn2 : buf[n2]? = some '\n')
    (hn3 : buf[n3]? = some '\n') (hn4 : buf[n4]? = some '\n')
    (hterm : buf[t]? = some '\x00') :
    (splits5 buf).isSome = true := by
  have s1 := splitB_step '\n' buf 0 n1 (by omega)
    (by omega) (Or.inl hn1)
  obtain ⟨g1, b1, p1, e1, hp1, hl1, hpres1⟩ := s1
  have s2 := splitB_step '\n' b1 p1 n2 (by omega) (by omega)
    (hpres1 n2 (Or.inl hn2))
  obtain ⟨g2, b2, p2, e2, hp2, hl2, hpres2⟩ := s2
  have s3 := splitB_step '\n' b2 p2 n3 (by omega) (by omega)
    (hpres2 n3 (hpres1 n3 (Or.inl hn3)))
  obtain ⟨g3, b3, p3, e3, hp3, hl3, hpres3⟩ := s3
  have s4 := splitB_step '\n' b3 p3 n4 (by omega) (by omega)
    (hpres3 n4 (hpres2 n4 (hpres1 n4 (Or.inl hn4))))
  obtain ⟨g4, b4, p4, e4, hp4, hl4, hpres4⟩ := s4
  have s5 := splitB_step '\n' b4 p4 t (by omega) (by omega)
    (hpres4 t (hpres3 t (hpres2 t (hpres1 t (Or.inr hterm)))))
  obtain ⟨g5, b5, p5, e5, _, _, _⟩ := s5
  simp [splits5, e1, e2, e3, e4, e5]

/-- C10 witness: a five-line capture in a ten-cell buffer keeps all five
split calls in bounds. -/
theorem splits_in_bounds_witness :
    (splits5 ['a', '\n', 'b', '\n', 'c', '\n', 'd', '\n', '\x00', 'x']).isSome
      = true :=
  splits_in_bounds ['a', '\n', 'b', '\n', 'c', '\n', 'd', '\n', '\x00', 'x']
    1 3 5 7 8 (by decide) (by decide) (by decide) (by decide) (by decide)
    (by decide) (by decide) (by decide) (by decide) (by decide)
